import Mathlib

/-!
Verification of the Scheduler Trace Metrics Engine of the
`scheduling_balancer` repository.

The development shallowly embeds the Python sources:

* `src/parse.py`  — the trace-line regex, the worker-lifecycle reducer and
  the run-metrics calculation (`parse_and_calculate_worker_metrics`);
* `src/state.py`  — the `Snapshot` dataclass, the bounded `deque` window of
  `RLStateBuilder`, `collect_raw` and `build_state`;
* `src/experiment.py` — the assembly of the per-run result row.

Python floats are embedded as rationals (`ℚ`): none of the verified
properties hinges on binary rounding.  Python `dict`s (which preserve
insertion order) are embedded as association lists with unique keys,
inserted at the end.  The regular expressions of `parse.py` are embedded as
character-level scanners; mandatory whitespace separates every token class
of `LOG_PATTERN`, and no token class contains whitespace, so the greedy
scanners below are equivalent to the backtracking regex search (the
equivalence argument is noted at each scanner).
-/

namespace SchedulingBalancer

/-! ### Character classes

Python `\s`, `\d`, `\w` restricted to ASCII; the trace lines produced by
`perf script` are ASCII. -/

def isWsChar (c : Char) : Bool :=
  c = ' ' || c = '\t' || c = '\n' || c = '\r' || c = '\x0b' || c = '\x0c'

def isDigitChar (c : Char) : Bool :=
  c.isDigit

/-- Characters matched by the class `[\w\-]` of `LOG_PATTERN`. -/
def isWordDashChar (c : Char) : Bool :=
  c.isAlphanum || c = '_' || c = '-'

/-- Greedy one-or-more scan: `p+` in a context where the character after
the maximal run is constrained by the next regex token, so backtracking to
a shorter run can never succeed when the maximal run fails. -/
def scan1 (p : Char → Bool) (cs : List Char) : Option (List Char × List Char) :=
  let t := cs.takeWhile p
  if t.isEmpty then none else some (t, cs.dropWhile p)

def digitsToNat (ds : List Char) : ℕ :=
  ds.foldl (fun a c => 10 * a + (c.toNat - ('0').toNat)) 0

/-- Value of the float literal `<int>.<frac>` captured by group 4 of
`LOG_PATTERN`, as an exact rational. -/
def floatDigitsToRat (intPart fracPart : List Char) : ℚ :=
  (digitsToNat intPart : ℚ) + (digitsToNat fracPart : ℚ) / (10 : ℚ) ^ fracPart.length

/-- One line matched by `LOG_PATTERN` (parse.py lines 8-10):
groups command, PID, CPU, timestamp, event details. -/
structure RawLine where
  command : List Char
  pid : ℤ
  cpu : ℕ
  ts : ℚ
  details : List Char
  deriving DecidableEq

/-- Strip the trailing newline of a line kept by `(.*)$` (the dollar of a
non-MULTILINE Python regex matches just before one final newline); a
newline anywhere else makes the whole pattern fail. -/
def detailsOfRest (cs : List Char) : Option (List Char) :=
  if cs.contains '\n' then
    if cs.getLast? = some '\n' && (cs.dropLast.contains '\n') = false then
      some cs.dropLast
    else
      none
  else
    some cs

/-- Embedding of `LOG_PATTERN.match(line)` (parse.py line 9):
the pattern is an anchored sequence of token classes separated by
mandatory whitespace, so the greedy left-to-right scan is equivalent to
the regex with backtracking. -/
def parseRaw (line : String) : Option RawLine := do
  let cs := line.toList.dropWhile isWsChar
  let (cmd, cs) ← scan1 isWordDashChar cs
  let (_, cs) ← scan1 isWsChar cs
  let (pidDs, cs) ← scan1 isDigitChar cs
  let (_, cs) ← scan1 isWsChar cs
  match cs with
  | '[' :: cs => do
    let (cpuDs, cs) ← scan1 isDigitChar cs
    match cs with
    | ']' :: cs => do
      let (_, cs) ← scan1 isWsChar cs
      let (tsInt, cs) ← scan1 isDigitChar cs
      match cs with
      | '.' :: cs => do
        let (tsFrac, cs) ← scan1 isDigitChar cs
        match cs with
        | ':' :: cs => do
          let (_, cs) ← scan1 isWsChar cs
          let d ← detailsOfRest cs
          pure { command := cmd, pid := (digitsToNat pidDs : ℤ),
                 cpu := digitsToNat cpuDs,
                 ts := floatDigitsToRat tsInt tsFrac, details := d }
        | _ => none
      | _ => none
    | _ => none
  | _ => none

/-! ### Sub-regex searches inside the event details -/

/-- Embedding of the containment test of the Python `in` operator on
strings, used for the three event markers. -/
def containsSub : List Char → List Char → Bool
  | pat, [] => pat.isEmpty
  | pat, c :: cs => pat.isPrefixOf (c :: cs) || containsSub pat cs

/-- Search for the pattern `child_pid=(\d+)` (parse.py line 47): first
position where the literal is followed by at least one digit. -/
def searchChildPid : List Char → Option ℤ
  | [] => none
  | c :: cs =>
    if ("child_pid=").toList.isPrefixOf (c :: cs) then
      let rest := (c :: cs).drop 10
      let ds := rest.takeWhile isDigitChar
      if ds.isEmpty then searchChildPid cs else some (digitsToNat ds : ℤ)
    else searchChildPid cs

/-- Try the pattern of parse.py line 79 at the head of the list:
arrow marker, whitespace, `[\w\-]+`, colon, digits, whitespace. -/
def matchNextPidAt (cs : List Char) : Option ℤ := do
  match cs with
  | '=' :: '=' :: '>' :: rest => do
    let (_, rest) ← scan1 isWsChar rest
    let (_, rest) ← scan1 isWordDashChar rest
    match rest with
    | ':' :: rest => do
      let (ds, rest) ← scan1 isDigitChar rest
      let (_, _) ← scan1 isWsChar rest
      pure (digitsToNat ds : ℤ)
    | _ => none
  | _ => none

/-- Embedding of the search for the incoming pid of a context switch,
pattern arrow marker then `([\w\-]+):(\d+)\s+` (parse.py line 79). -/
def searchNextPid : List Char → Option ℤ
  | [] => none
  | c :: cs =>
    match matchNextPidAt (c :: cs) with
    | some n => some n
    | none => searchNextPid cs

/-! ### Worker lifecycle tracker (parse.py lines 17-93) -/

/-- One entry of the `worker_data` dictionary (parse.py lines 52-59).
Timestamps are rationals; `none` embeds Python `None`. -/
structure WorkerRec where
  T_Arrival : Option ℚ
  T_First_CPU : Option ℚ
  T_Completion : Option ℚ
  Total_CPU_Time : ℚ
  T_Last_Scheduled_In : Option ℚ
  deriving DecidableEq

/-- The record created for a freshly forked worker (parse.py lines 53-59). -/
def newRec (ts : ℚ) : WorkerRec :=
  { T_Arrival := some ts, T_First_CPU := none, T_Completion := none,
    Total_CPU_Time := 0, T_Last_Scheduled_In := none }

/-- `worker_data` as an insertion-ordered association list (Python dicts
preserve insertion order, which the metrics loops rely on). -/
abbrev WorkerMap := List (ℤ × WorkerRec)

def lookupRec (m : WorkerMap) (p : ℤ) : Option WorkerRec :=
  match m.find? (fun e => e.1 = p) with
  | some e => some e.2
  | none => none

/-- Mutation of the record stored under key `p`: `worker_data[p] = ...`. -/
def updRec (m : WorkerMap) (p : ℤ) (f : WorkerRec → WorkerRec) : WorkerMap :=
  m.map (fun e => if e.1 = p then (e.1, f e.2) else e)

/-- State threaded through the line loop of
`parse_and_calculate_worker_metrics`: the worker dictionary and the
experiment start/end trackers.  The code initialises the trackers to
`float('inf')` and `float('-inf')` (parse.py lines 26-27); `none` embeds
that no parsed line has updated them yet. -/
structure TraceState where
  worker_data : WorkerMap
  startT : Option ℚ
  endT : Option ℚ
  deriving DecidableEq

def initState : TraceState := { worker_data := [], startT := none, endT := none }

/-- `experiment_start_time = min(experiment_start_time, timestamp)`
(parse.py line 41); `min(inf, t) = t`. -/
def updMin (o : Option ℚ) (t : ℚ) : Option ℚ :=
  match o with
  | none => some t
  | some s => some (min s t)

/-- `experiment_end_time = max(experiment_end_time, timestamp)`
(parse.py line 42); `max(-inf, t) = t`. -/
def updMax (o : Option ℚ) (t : ℚ) : Option ℚ :=
  match o with
  | none => some t
  | some s => some (max s t)

/-- Outcome of the `elif` chain over the event details
(parse.py lines 45, 62, 68): at most one branch fires, in this order;
a body containing none of the three markers falls through (`other`).
The extraction results of the fork / switch sub-searches are carried
along. -/
inductive EventKind where
  | fork (child : Option ℤ)
  | exit
  | sw (next : Option ℤ)
  | other
  deriving DecidableEq

def forkMarker : List Char := ("sched:sched_process_fork").toList
def exitMarker : List Char := ("sched:sched_process_exit").toList
def switchMarker : List Char := ("sched:sched_switch").toList

def classify (d : List Char) : EventKind :=
  if containsSub forkMarker d then .fork (searchChildPid d)
  else if containsSub exitMarker d then .exit
  else if containsSub switchMarker d then .sw (searchNextPid d)
  else .other

/-- The record mutation of parse.py lines 72-76: accumulate the closing
slice and clear the open-slice marker. -/
def closeSliceUpd (ts tin : ℚ) (r : WorkerRec) : WorkerRec :=
  { r with Total_CPU_Time := r.Total_CPU_Time + (ts - tin),
           T_Last_Scheduled_In := none }

/-- The record mutation of parse.py line 65: record the completion time. -/
def exitUpd (ts : ℚ) (r : WorkerRec) : WorkerRec :=
  { r with T_Completion := some ts }

/-- The record mutation of parse.py lines 85-89: set `T_First_CPU` only
the first time, then open the new slice. -/
def schedInUpd (ts : ℚ) (r : WorkerRec) : WorkerRec :=
  { r with
    T_First_CPU := (match r.T_First_CPU with
      | none => some ts
      | some t => some t),
    T_Last_Scheduled_In := some ts }

/-- First half of the switch branch (parse.py lines 70-76): the guard
`pid in worker_data and worker_data[pid]['T_Last_Scheduled_In'] is not
None` is the join of the two lookups; when it holds, add
`timestamp - T_Last_Scheduled_In` to the subject's `Total_CPU_Time` and
clear `T_Last_Scheduled_In`. -/
def closeSlice (st : TraceState) (pid : ℤ) (ts : ℚ) : TraceState :=
  match (lookupRec st.worker_data pid).bind (fun r => r.T_Last_Scheduled_In) with
  | some tin => { st with worker_data := updRec st.worker_data pid (closeSliceUpd ts tin) }
  | none => st

/-- Second half of the switch branch (parse.py lines 79-89): when the
extracted incoming pid already has a record, set its `T_First_CPU` if
unset and open a new slice at the event timestamp.  An unknown incoming
pid is ignored — no record is created here. -/
def schedIn (st : TraceState) (ts : ℚ) (next : Option ℤ) : TraceState :=
  match next with
  | some np =>
    if (lookupRec st.worker_data np).isSome then
      { st with worker_data := updRec st.worker_data np (schedInUpd ts) }
    else st
  | none => st

/-- Body of the per-line dispatch (parse.py lines 44-89), after the
start/end trackers were updated.  `pid` is the subject pid of the line,
`ts` its timestamp. -/
def applyEvent (st : TraceState) (pid : ℤ) (ts : ℚ) : EventKind → TraceState
  | .fork child =>
    match child with
    | some wp =>
      -- parse.py lines 52-59: create only if absent
      if (lookupRec st.worker_data wp).isSome then st
      else { st with worker_data := st.worker_data ++ [(wp, newRec ts)] }
    | none => st
  | .exit =>
    -- parse.py lines 64-65: unconditional assignment when a record exists
    if (lookupRec st.worker_data pid).isSome then
      { st with worker_data := updRec st.worker_data pid (exitUpd ts) }
    else st
  | .sw next => schedIn (closeSlice st pid ts) ts next
  | .other => st

/-- The tracker updates of parse.py lines 41-42. -/
def bumpTrackers (st : TraceState) (ts : ℚ) : TraceState :=
  { st with startT := updMin st.startT ts, endT := updMax st.endT ts }

/-- One iteration of the line loop (parse.py lines 31-89): skip on regex
mismatch, otherwise update the duration trackers and dispatch on the
event details. -/
def processLine (st : TraceState) (line : String) : TraceState :=
  match parseRaw line with
  | none => st
  | some L => applyEvent (bumpTrackers st L.ts) L.pid L.ts (classify L.details)

def processTrace (lines : List String) : TraceState :=
  lines.foldl processLine initState

/-! ### Run metrics calculation (parse.py lines 95-154) -/

/-- The final-slice pass of parse.py lines 104-107: for every record with
an open `T_Last_Scheduled_In`, add `experiment_end_time - T_Last_Scheduled_In`
to `Total_CPU_Time`.  The code does not clear `T_Last_Scheduled_In` here. -/
def finalizeRec (e : ℚ) (r : WorkerRec) : WorkerRec :=
  match r.T_Last_Scheduled_In with
  | some tin => { r with Total_CPU_Time := r.Total_CPU_Time + (e - tin) }
  | none => r

def finalizeData (m : WorkerMap) (e : ℚ) : WorkerMap :=
  m.map (fun p => (p.1, finalizeRec e p.2))

/-- Turnaround-time sum and count (parse.py lines 109-113). -/
def tatList (m : WorkerMap) : List ℚ :=
  m.filterMap (fun p =>
    match p.2.T_Arrival, p.2.T_Completion with
    | some a, some c => some (c - a)
    | _, _ => none)

/-- Response-time sum and count (parse.py lines 116-119): only complete
records that additionally have `T_First_CPU`. -/
def rtList (m : WorkerMap) : List ℚ :=
  m.filterMap (fun p =>
    match p.2.T_Arrival, p.2.T_Completion, p.2.T_First_CPU with
    | some a, some _, some f => some (f - a)
    | _, _, _ => none)

/-- `cpu_times` (parse.py lines 127-133): `Total_CPU_Time` of every record
whose `T_Completion` is set, in dictionary order. -/
def cpuTimes (m : WorkerMap) : List ℚ :=
  m.filterMap (fun p =>
    if p.2.T_Completion.isSome then some p.2.Total_CPU_Time else none)

def listMean (vs : List ℚ) : ℚ :=
  vs.sum / vs.length

/-- Population variance, the square of `np.std` (parse.py line 142). -/
def popVar (vs : List ℚ) : ℚ :=
  ((vs.map (fun v => (v - listMean vs) ^ 2)).sum) / vs.length

/-- Square of the coefficient of variation computed by parse.py lines
135-146: `0` when `cpu_times` is empty (early return, line 136) or when
the mean is not positive (line 146); otherwise the code returns
`std_dev / mean_time`, whose square is `popVar / mean²`.  The square is
used because the code's value contains an irrational square root; it is
zero, respectively positive, exactly when the code's value is. -/
def cvSq (vs : List ℚ) : ℚ :=
  if vs = [] then 0
  else if 0 < listMean vs then popVar vs / (listMean vs) ^ 2
  else 0

def avgOf (vs : List ℚ) : ℚ :=
  if vs.length = 0 then 0 else vs.sum / vs.length

/-- `experiment_end_time - experiment_start_time` (parse.py lines 136 and
152).  With no parsed line the trackers still hold their `float('inf')` /
`float('-inf')` initialisers and the difference is `-inf`. -/
inductive Duration where
  | negInf
  | fin (q : ℚ)
  deriving DecidableEq

def durationOf (startT endT : Option ℚ) : Duration :=
  match startT, endT with
  | some s, some e => .fin (e - s)
  | _, _ => .negInf

/-- The dictionary returned by `parse_and_calculate_worker_metrics`
(parse.py lines 136 and 148-154).  `CV_Fairness_sq` is the square of the
code's `CV_Fairness` float (see `cvSq`). -/
structure RunMetrics where
  Average_TAT : ℚ
  Average_RT : ℚ
  CV_Fairness_sq : ℚ
  Total_Experiment_Duration : Duration
  deriving DecidableEq

/-- Steps 2 and 3 of `parse_and_calculate_worker_metrics` (parse.py lines
95-154) applied to the loop's final state.  The final-slice pass uses
`experiment_end_time`; a record can only exist after some line parsed, so
`endT` is `some` whenever `worker_data` is non-empty and the `getD`
default is never read (lemma `endT_isSome_of_mem` below). -/
def calcMetrics (st : TraceState) : RunMetrics :=
  let e := st.endT.getD 0
  let m := finalizeData st.worker_data e
  { Average_TAT := avgOf (tatList m),
    Average_RT := avgOf (rtList m),
    CV_Fairness_sq := cvSq (cpuTimes m),
    Total_Experiment_Duration := durationOf st.startT st.endT }

/-- `parse_and_calculate_worker_metrics` (parse.py line 12): the file is
`none` when absent, in which case the `FileNotFoundError` handler
(parse.py lines 91-93) returns the empty dictionary, embedded as `none`. -/
def parse_and_calculate_worker_metrics (file : Option (List String)) : Option RunMetrics :=
  match file with
  | none => none
  | some lines => some (calcMetrics (processTrace lines))

/-! ### Snapshot sampler and sliding window (src/state.py) -/

/-- The `Snapshot` dataclass (state.py lines 7-37).  Counter values are
embedded as rationals (the psutil sources are floats/ints). -/
structure Snapshot where
  experiment_id : ℤ
  T_cpu_percent : ℚ
  T_cpu_user_percent : ℚ
  T_iowait_percent : ℚ
  T_irq_percent : ℚ
  T_softirq_percent : ℚ
  T_run_queue : ℚ
  T_active_threads : ℚ
  T_blocked_threads : ℚ
  T_io_blocked_threads : ℚ
  T_mem_used : ℚ
  T_mem_available : ℚ
  T_swap_used : ℚ
  T_cache_mem : ℚ
  T_buffers_mem : ℚ
  T_swap_in_total : ℚ
  T_swap_out_total : ℚ
  T_io_read_total : ℚ
  T_io_write_total : ℚ
  T_nvcsw_total : ℚ
  T_vcsw_total : ℚ
  deriving DecidableEq

/-- The metric names reduced by `build_state`, i.e. the union of
`avg_metrics` and `total_metrics` (state.py lines 50-59).
`T_cpu_user_percent` appears in neither list and is not reduced. -/
inductive MetricName where
  | cpu_percent | iowait_percent | irq_percent | softirq_percent
  | run_queue | active_threads | blocked_threads | io_blocked_threads
  | mem_used | mem_available | swap_used | cache_mem | buffers_mem
  | swap_in_total | swap_out_total | io_read_total | io_write_total
  | nvcsw_total | vcsw_total
  deriving DecidableEq

/-- `getattr(s, m)` for the reduced metrics. -/
def getMetric (s : Snapshot) : MetricName → ℚ
  | .cpu_percent => s.T_cpu_percent
  | .iowait_percent => s.T_iowait_percent
  | .irq_percent => s.T_irq_percent
  | .softirq_percent => s.T_softirq_percent
  | .run_queue => s.T_run_queue
  | .active_threads => s.T_active_threads
  | .blocked_threads => s.T_blocked_threads
  | .io_blocked_threads => s.T_io_blocked_threads
  | .mem_used => s.T_mem_used
  | .mem_available => s.T_mem_available
  | .swap_used => s.T_swap_used
  | .cache_mem => s.T_cache_mem
  | .buffers_mem => s.T_buffers_mem
  | .swap_in_total => s.T_swap_in_total
  | .swap_out_total => s.T_swap_out_total
  | .io_read_total => s.T_io_read_total
  | .io_write_total => s.T_io_write_total
  | .nvcsw_total => s.T_nvcsw_total
  | .vcsw_total => s.T_vcsw_total

/-- `self.avg_metrics` (state.py lines 50-54), in source order. -/
def avg_metrics : List MetricName :=
  [.cpu_percent, .iowait_percent, .irq_percent, .softirq_percent,
   .run_queue, .active_threads, .blocked_threads, .io_blocked_threads,
   .mem_used, .mem_available, .swap_used, .cache_mem, .buffers_mem]

/-- `self.total_metrics` (state.py lines 55-59), in source order. -/
def total_metrics : List MetricName :=
  [.swap_in_total, .swap_out_total, .io_read_total, .io_write_total,
   .nvcsw_total, .vcsw_total]

/-- `self.buffer_size = int(duration // interval)` (state.py line 43):
float floor-division then `int` truncation, which is exact because the
argument is already floored. -/
def buffer_size (duration interval : ℚ) : ℤ :=
  Int.floor (duration / interval)

/-- `deque(maxlen=cap).append`: a full buffer evicts its oldest entry. -/
def dequePush (cap : ℕ) (buf : List Snapshot) (s : Snapshot) : List Snapshot :=
  let b := buf ++ [s]
  b.drop (b.length - cap)

/-- Pushing a whole sequence of snapshots into an initially empty deque. -/
def dequePushAll (cap : ℕ) (xs : List Snapshot) : List Snapshot :=
  xs.foldl (dequePush cap) []

/-- One entry of the state dictionary built by `build_state`
(state.py lines 122-135): `avg` is present only for averaged metrics. -/
structure ReducedEntry where
  avg : Option ℚ
  delta : ℚ
  pct_change : ℚ
  deriving DecidableEq

/-- `delta / oldest_val * 100 if oldest_val != 0 else 0`
(state.py lines 127 and 134). -/
def pctChange (delta oldestVal : ℚ) : ℚ :=
  if oldestVal ≠ 0 then delta / oldestVal * 100 else 0

/-- `build_state` (state.py lines 110-137): `none` on an empty buffer,
otherwise one entry per metric of `avg_metrics` then `total_metrics`. -/
def build_state (samples : List Snapshot) : Option (List (MetricName × ReducedEntry)) :=
  match samples.getLast?, samples.head? with
  | some newest, some oldest =>
    some
      ((avg_metrics.map (fun m =>
          let values := samples.map (fun s => getMetric s m)
          let avg := values.sum / values.length
          let delta := getMetric newest m - getMetric oldest m
          (m, { avg := some avg, delta := delta,
                pct_change := pctChange delta (getMetric oldest m) }))) ++
        (total_metrics.map (fun m =>
          let delta := getMetric newest m - getMetric oldest m
          (m, { avg := none, delta := delta,
                pct_change := pctChange delta (getMetric oldest m) }))))
  | _, _ => none

/-! ### `collect_raw` (state.py lines 61-108) -/

/-- `num_ctx_switches()` of one process; `none` embeds a process that
vanished before the query (`psutil.NoSuchProcess`, skipped). -/
structure CtxSwitches where
  voluntary : ℚ
  involuntary : ℚ
  deriving DecidableEq

structure ThreadInfo where
  user_time : ℚ
  deriving DecidableEq

/-- The instantaneous OS readings consumed by one `collect_raw` call. -/
structure SysReading where
  mem_used : ℚ
  mem_available : ℚ
  mem_cached : ℚ
  mem_buffers : ℚ
  swap_used : ℚ
  swap_sin : ℚ
  swap_sout : ℚ
  io_read_bytes : ℚ
  io_write_bytes : ℚ
  cpu_percent : ℚ
  cpu_user : ℚ
  cpu_iowait : ℚ
  cpu_irq : ℚ
  cpu_softirq : ℚ
  threads : List ThreadInfo
  procs : List (Option CtxSwitches)
  deriving DecidableEq

/-- The context-switch accumulation loop of `collect_raw`
(state.py lines 70-79): both accumulators add
`p.num_ctx_switches().voluntary`; vanished processes are skipped. -/
def vcswAccum (procs : List (Option CtxSwitches)) : ℚ :=
  (procs.filterMap id).foldl (fun a c => a + c.voluntary) 0

def nvcswAccum (procs : List (Option CtxSwitches)) : ℚ :=
  (procs.filterMap id).foldl (fun a c => a + c.voluntary) 0

/-- `collect_raw` (state.py lines 61-108): the snapshot appended to the
buffer, as a function of the readings taken in this call. -/
def collect_raw (experiment_id : ℤ) (rd : SysReading) : Snapshot :=
  { experiment_id := experiment_id,
    T_cpu_percent := rd.cpu_percent,
    T_cpu_user_percent := rd.cpu_user,
    T_iowait_percent := rd.cpu_iowait,
    T_irq_percent := rd.cpu_irq,
    T_softirq_percent := rd.cpu_softirq,
    T_run_queue := (rd.threads.length : ℚ),
    T_active_threads := ((rd.threads.filter (fun t => 0 < t.user_time)).length : ℚ),
    T_blocked_threads := 0,
    T_io_blocked_threads := 0,
    T_mem_used := rd.mem_used,
    T_mem_available := rd.mem_available,
    T_swap_used := rd.swap_used,
    T_cache_mem := rd.mem_cached,
    T_buffers_mem := rd.mem_buffers,
    T_swap_in_total := rd.swap_sin,
    T_swap_out_total := rd.swap_sout,
    T_io_read_total := rd.io_read_bytes,
    T_io_write_total := rd.io_write_bytes,
    T_nvcsw_total := nvcswAccum rd.procs,
    T_vcsw_total := vcswAccum rd.procs }

/-! ### The run-result assembly of `experiment` (src/experiment.py) -/

/-- Number of required positional parameters of
`parse_and_calculate_worker_metrics` (parse.py line 12:
`log_file_path` and `workload_root_pid`). -/
def parseAndCalcParamCount : ℕ := 2

/-- Number of positional arguments passed at the call site inside
`experiment` (experiment.py line 47: only the log path). -/
def experimentParseCallArgCount : ℕ := 1

/-- The request parameters of one run, as used by the result row
(experiment.py lines 53-59). -/
structure RunRequest where
  scheduler : String
  cpu : ℤ
  io : ℤ
  mem_load : ℤ
  deriving DecidableEq

/-- Modelled from the dynamic semantics of the call in `experiment`
(experiment.py lines 25-83): `results = {}` is assigned before the `try`
block; the block reaches `parse_and_calculate_worker_metrics(output)`
(line 47), and in Python a call that supplies fewer positional arguments
than the callee requires raises `TypeError` at the call, before the
function body runs; the blanket `except Exception` (line 65) swallows it
and the `finally` block returns the still-empty `results`.  Only when the
argument count matches would the row of lines 53-62 be built.  The row is
embedded as its key list. -/
def experimentResultKeys (_req : RunRequest) : List String :=
  if experimentParseCallArgCount = parseAndCalcParamCount then
    ["exp_id", "scheduler", "cpu", "io", "mem_load"]
  else
    []

/-! ### Invariants used to reason about the line loop -/

/-- All records are well-formed with respect to the bound `b`: accumulated
CPU time is non-negative and every open slice started no later than `b`. -/
def SchedBound (m : WorkerMap) (b : ℚ) : Prop :=
  ∀ (p : ℤ) (r : WorkerRec), lookupRec m p = some r →
    0 ≤ r.Total_CPU_Time ∧ ∀ t, r.T_Last_Scheduled_In = some t → t ≤ b

/-- Loop invariant: accumulated CPU time is non-negative and every open
slice started no later than the end-of-trace tracker. -/
def InvB (st : TraceState) : Prop :=
  ∀ (p : ℤ) (r : WorkerRec), lookupRec st.worker_data p = some r →
    0 ≤ r.Total_CPU_Time ∧
    ∀ t, r.T_Last_Scheduled_In = some t → ∃ e, st.endT = some e ∧ t ≤ e

/-- The timestamps of the lines accepted by `LOG_PATTERN`, in file order. -/
def tsSeq (lines : List String) : List ℚ :=
  (lines.filterMap parseRaw).map (fun L => L.ts)

/-! ### Concrete sample data used by the claim theorems -/

/-- A trace in which worker 6's slice closes at a timestamp smaller than
the one that opened it (the trace timestamps regress), leaving completed
workers with CPU times `1` and `-1`. -/
def c6Lines : List String :=
  [ "w 1 [0] 0.50: sched:sched_process_fork comm=w pid=1 child_comm=w child_pid=5",
    "w 1 [0] 0.60: sched:sched_process_fork comm=w pid=1 child_comm=w child_pid=6",
    "w 1 [0] 1.00: sched:sched_switch: w:1 [120] R ==> w:5 [120]",
    "w 5 [0] 2.00: sched:sched_switch: w:5 [120] R ==> w:1 [120]",
    "w 1 [0] 4.00: sched:sched_switch: w:1 [120] R ==> w:6 [120]",
    "w 6 [0] 3.00: sched:sched_switch: w:6 [120] R ==> w:1 [120]",
    "w 5 [0] 4.50: sched:sched_process_exit comm=w pid=5 prio=120",
    "w 6 [0] 4.60: sched:sched_process_exit comm=w pid=6 prio=120" ]

/-- The first three lines of `c6Lines`: a timestamp regression makes the
closing slice of worker 5 negative. -/
def c5Lines : List String :=
  [ "w 1 [0] 1.00: sched:sched_process_fork comm=w pid=1 child_comm=w child_pid=5",
    "w 1 [0] 10.00: sched:sched_switch: w:1 [120] R ==> w:5 [120]",
    "w 5 [0] 3.00: sched:sched_switch: w:5 [120] R ==> w:1 [120]" ]

/-- A well-formed trace with non-decreasing timestamps: worker 5 is
forked, runs one slice of length 1, and exits. -/
def c5MonoLines : List String :=
  [ "w 1 [0] 0.50: sched:sched_process_fork comm=w pid=1 child_comm=w child_pid=5",
    "w 1 [0] 1.00: sched:sched_switch: w:1 [120] R ==> w:5 [120]",
    "w 5 [0] 2.00: sched:sched_switch: w:5 [120] R ==> w:1 [120]",
    "w 5 [0] 3.00: sched:sched_process_exit comm=w pid=5 prio=120" ]

/-- The event details of `c1Line`. -/
def c9Details : List Char :=
  ("sched:sched_switch: w:1 [120] R ==> w:7 [120]").toList

/-- An all-zero snapshot. -/
def sampleSnap : Snapshot :=
  { experiment_id := 0, T_cpu_percent := 0, T_cpu_user_percent := 0,
    T_iowait_percent := 0, T_irq_percent := 0, T_softirq_percent := 0,
    T_run_queue := 0, T_active_threads := 0, T_blocked_threads := 0,
    T_io_blocked_threads := 0, T_mem_used := 0, T_mem_available := 0,
    T_swap_used := 0, T_cache_mem := 0, T_buffers_mem := 0,
    T_swap_in_total := 0, T_swap_out_total := 0, T_io_read_total := 0,
    T_io_write_total := 0, T_nvcsw_total := 0, T_vcsw_total := 0 }

/-- A record map with one worker whose CPU slice is still open at trace
end. -/
def c2SampleMap : WorkerMap :=
  [(1, { T_Arrival := some 0, T_First_CPU := some 0, T_Completion := none,
         Total_CPU_Time := 0, T_Last_Scheduled_In := some 1 })]

/-- A record map whose single record has no open slice. -/
def c2ClosedMap : WorkerMap :=
  [(1, { T_Arrival := some 0, T_First_CPU := some 0, T_Completion := some 3,
         Total_CPU_Time := 5, T_Last_Scheduled_In := none })]

/-- A trace forking worker 5 and then containing two exit lines for it,
at timestamps 1 and 2. -/
def c4Lines : List String :=
  [ "w 1 [0] 0.00: sched:sched_process_fork comm=w pid=1 child_comm=w child_pid=5",
    "w 5 [0] 1.00: sched:sched_process_exit comm=w pid=5 prio=120",
    "w 5 [0] 2.00: sched:sched_process_exit comm=w pid=5 prio=120" ]

def c4State : TraceState :=
  { worker_data := c2SampleMap, startT := some 0, endT := some 3 }

/-- A trace whose only line is a context switch into pid 7, which was
never forked. -/
def c1Line : String := "w 1 [0] 1.00: sched:sched_switch: w:1 [120] R ==> w:7 [120]"

/-- State with one known worker (pid 5). -/
def c1State : TraceState :=
  { worker_data := [(5, newRec 0)], startT := some 0, endT := some 0 }

/-! ### Helper lemmas about the worker dictionary -/

theorem lookupRec_cons (k : ℤ) (v : WorkerRec) (m : WorkerMap) (q : ℤ) :
    lookupRec ((k, v) :: m) q = if k = q then some v else lookupRec m q := by
  by_cases h : k = q <;> simp [lookupRec, List.find?_cons, h]

theorem lookup_updRec (m : WorkerMap) (p : ℤ) (f : WorkerRec → WorkerRec) (q : ℤ) :
    lookupRec (updRec m p f) q =
      if q = p then (lookupRec m q).map f else lookupRec m q := by
  induction m with
  | nil => simp [lookupRec, updRec]
  | cons e m ih =>
    obtain ⟨k, v⟩ := e
    have hpair : (if (k, v).1 = p then ((k, v).1, f (k, v).2) else (k, v)) =
        (k, if k = p then f v else v) := by
      by_cases h : k = p <;> simp [h]
    simp only [updRec, List.map_cons] at *
    rw [hpair, lookupRec_cons, lookupRec_cons, ih]
    by_cases hkq : k = q <;> by_cases hqp : q = p <;>
      simp [hkq, hqp] <;> simp_all

theorem lookup_append (m m2 : WorkerMap) (q : ℤ) :
    lookupRec (m ++ m2) q =
      match lookupRec m q with
      | some r => some r
      | none => lookupRec m2 q := by
  unfold lookupRec
  rw [List.find?_append]
  cases h : m.find? (fun e => e.1 = q) <;> simp [Option.orElse]

theorem lookup_finalizeData (m : WorkerMap) (e : ℚ) (p : ℤ) :
    lookupRec (finalizeData m e) p = (lookupRec m p).map (finalizeRec e) := by
  induction m with
  | nil => simp [lookupRec, finalizeData]
  | cons x m ih =>
    obtain ⟨k, v⟩ := x
    simp only [finalizeData, List.map_cons] at *
    rw [lookupRec_cons, lookupRec_cons, ih]
    by_cases hkp : k = p <;> simp [hkp]

theorem closeSlice_trackers (st : TraceState) (pid : ℤ) (ts : ℚ) :
    (closeSlice st pid ts).endT = st.endT ∧
      (closeSlice st pid ts).startT = st.startT := by
  unfold closeSlice
  constructor <;> (repeat' split) <;> rfl

theorem schedIn_trackers (st : TraceState) (ts : ℚ) (next : Option ℤ) :
    (schedIn st ts next).endT = st.endT ∧
      (schedIn st ts next).startT = st.startT := by
  unfold schedIn
  cases next with
  | none => exact ⟨rfl, rfl⟩
  | some np =>
    by_cases h : (lookupRec st.worker_data np).isSome <;> simp [h]

/-- `applyEvent` never touches the duration trackers. -/
theorem applyEvent_endT (st : TraceState) (pid : ℤ) (ts : ℚ) (k : EventKind) :
    (applyEvent st pid ts k).endT = st.endT ∧
      (applyEvent st pid ts k).startT = st.startT := by
  cases k with
  | fork child =>
    cases child with
    | none => exact ⟨rfl, rfl⟩
    | some wp =>
      simp only [applyEvent]
      by_cases h : (lookupRec st.worker_data wp).isSome <;> simp [h]
  | exit =>
    simp only [applyEvent]
    by_cases h : (lookupRec st.worker_data pid).isSome <;> simp [h]
  | sw next =>
    simp only [applyEvent]
    have h1 := schedIn_trackers (closeSlice st pid ts) ts next
    have h2 := closeSlice_trackers st pid ts
    exact ⟨h1.1.trans h2.1, h1.2.trans h2.2⟩
  | other => exact ⟨rfl, rfl⟩

/-- A record can only exist once some line has parsed, and every parsed
line sets the end tracker: a non-empty dictionary guarantees
`experiment_end_time` is a real timestamp. -/
theorem endT_isSome_of_mem (lines : List String) :
    (processTrace lines).worker_data ≠ [] → (processTrace lines).endT.isSome := by
  suffices h : ∀ (st : TraceState), (st.worker_data ≠ [] → st.endT.isSome) →
      ((lines.foldl processLine st).worker_data ≠ [] →
        (lines.foldl processLine st).endT.isSome) by
    exact h initState (by simp [initState])
  induction lines with
  | nil => intro st hst; exact hst
  | cons l ls ih =>
    intro st hst
    simp only [List.foldl_cons]
    apply ih
    cases hp : parseRaw l with
    | none => simpa [processLine, hp] using hst
    | some L =>
      intro _
      simp only [processLine, hp]
      rw [(applyEvent_endT (bumpTrackers st L.ts) L.pid L.ts
        (classify L.details)).1]
      simp only [bumpTrackers]
      cases st.endT <;> simp [updMax]

/-! ### Claim C2 — double application of the final-slice pass -/

unseal Rat.mul Rat.add Rat.sub Rat.inv in
/-- Claim C2, counterexample: the code's final-slice pass (parse.py lines
104-107) does not clear `T_Last_Scheduled_In`, so applying it twice with
the same run end time `2` counts the open slice twice and yields a
different record map than applying it once. -/
theorem c2_finalize_not_idempotent :
    finalizeData (finalizeData c2SampleMap 2) 2 ≠ finalizeData c2SampleMap 2 := by
  decide

/-- Unfolding of `finalizeRec` on a record with an open slice. -/
theorem finalizeRec_open (e : ℚ) (r : WorkerRec) (t : ℚ)
    (h : r.T_Last_Scheduled_In = some t) :
    finalizeRec e r = { r with Total_CPU_Time := r.Total_CPU_Time + (e - t) } := by
  unfold finalizeRec
  rw [h]

/-- When no record holds an open slice the final-slice pass is the
identity. -/
theorem finalizeData_eq_self (m : WorkerMap) (e : ℚ)
    (hall : ∀ pr ∈ m, pr.2.T_Last_Scheduled_In = none) : finalizeData m e = m := by
  induction m with
  | nil => rfl
  | cons x m ih =>
    have hx : finalizeRec e x.2 = x.2 := by
      simp [finalizeRec, hall x (List.mem_cons_self x m)]
    have ht := ih (fun pr hpr => hall pr (List.mem_cons_of_mem x hpr))
    simp only [finalizeData, List.map_cons] at *
    rw [hx, ht]

/-- Claim C2, amended: the final-slice pass adds
`run_end_time - scheduled_in_at` for every record with an open slice but
does not clear `scheduled_in_at`; applying it twice therefore adds the
cutoff slice twice to every such record, and it is idempotent on maps in
which no record holds an open slice. -/
theorem c2_finalize_double_counts (m : WorkerMap) (e : ℚ) :
    ((∀ pr ∈ m, pr.2.T_Last_Scheduled_In = none) →
      finalizeData (finalizeData m e) e = finalizeData m e) ∧
    (∀ (p : ℤ) (r : WorkerRec) (t : ℚ), lookupRec m p = some r →
      r.T_Last_Scheduled_In = some t →
      lookupRec (finalizeData (finalizeData m e) e) p =
        some { r with Total_CPU_Time := r.Total_CPU_Time + (e - t) + (e - t) }) := by
  constructor
  · intro hall
    rw [finalizeData_eq_self m e hall]
    exact finalizeData_eq_self m e hall
  · intro p r t hlk hsch
    rw [lookup_finalizeData, lookup_finalizeData, hlk]
    rw [Option.map_some', finalizeRec_open e r t hsch]
    have h2 : ({ r with Total_CPU_Time := r.Total_CPU_Time + (e - t) } :
        WorkerRec).T_Last_Scheduled_In = some t := hsch
    rw [Option.map_some', finalizeRec_open e _ t h2]

theorem c2_finalize_double_counts_witness :
    finalizeData (finalizeData c2ClosedMap 2) 2 = finalizeData c2ClosedMap 2 :=
  (c2_finalize_double_counts c2ClosedMap 2).1 (by decide)

/-! ### Claim C4 — repeated exit events overwrite the completion time -/

unseal Rat.mul Rat.add Rat.sub Rat.inv in
/-- Claim C4, counterexample: the exit branch (parse.py lines 64-65)
assigns unconditionally, so after a second exit event for pid 5 the
stored completion time is the second timestamp `2`, not the first
timestamp `1` — the last exit wins, not the first. -/
theorem c4_second_exit_overwrites :
    (lookupRec (processTrace c4Lines).worker_data 5).map
        (fun r => r.T_Completion) = some (some 2) ∧
      some (2 : ℚ) ≠ some (1 : ℚ) := by
  constructor
  · decide
  · decide

/-- Claim C4, amended: every Exit event whose subject pid has a record
sets `T_Completion` to that event's timestamp, overwriting any earlier
value (last exit wins); an Exit event for an unknown pid leaves the
state unchanged. -/
theorem c4_exit_overwrites (st : TraceState) (pid : ℤ) (ts : ℚ) :
    ((lookupRec st.worker_data pid).isSome = false →
      applyEvent st pid ts .exit = st) ∧
    (∀ r : WorkerRec, lookupRec st.worker_data pid = some r →
      lookupRec (applyEvent st pid ts .exit).worker_data pid =
        some { r with T_Completion := some ts }) := by
  constructor
  · intro h
    simp [applyEvent, h]
  · intro r hr
    simp only [applyEvent, hr, Option.isSome_some, if_true]
    rw [lookup_updRec]
    simp [hr, exitUpd]

theorem c4_exit_overwrites_witness :
    lookupRec c4State.worker_data 1 =
        some { T_Arrival := some 0, T_First_CPU := some 0, T_Completion := none,
               Total_CPU_Time := 0, T_Last_Scheduled_In := some 1 } ∧
      lookupRec (applyEvent c4State 1 3 .exit).worker_data 1 =
        some { T_Arrival := some 0, T_First_CPU := some 0, T_Completion := some 3,
               Total_CPU_Time := 0, T_Last_Scheduled_In := some 1 } :=
  ⟨by decide, (c4_exit_overwrites c4State 1 3).2
    { T_Arrival := some 0, T_First_CPU := some 0, T_Completion := none,
      Total_CPU_Time := 0, T_Last_Scheduled_In := some 1 } (by decide)⟩

/-! ### Claim C1 — no record is created for an unseen incoming pid -/

theorem lookup_closeSlice_ne (st : TraceState) (pid : ℤ) (ts : ℚ) (q : ℤ)
    (h : q ≠ pid) :
    lookupRec (closeSlice st pid ts).worker_data q = lookupRec st.worker_data q := by
  unfold closeSlice
  repeat' split
  all_goals first
  | rfl
  | simp only [lookup_updRec, if_neg h]

theorem lookup_closeSlice_none (st : TraceState) (pid : ℤ) (ts : ℚ) (q : ℤ)
    (h : lookupRec st.worker_data q = none) :
    lookupRec (closeSlice st pid ts).worker_data q = none := by
  by_cases hq : q = pid
  · subst hq
    unfold closeSlice
    rw [h]
    exact h
  · rw [lookup_closeSlice_ne st pid ts q hq, h]

unseal Rat.mul Rat.add Rat.sub Rat.inv in
/-- Claim C1, counterexample: the single line of `c1Line` parses and is
classified as a switch whose incoming pid is 7, yet after processing the
trace the worker dictionary is still empty — the switch branch
(parse.py line 83) only updates records that already exist, it never
creates one, so a worker observed only via scheduling gets no record and
accrues no CPU time. -/
theorem c1_no_record_created :
    (parseRaw c1Line).map (fun L => classify L.details) =
        some (.sw (some 7)) ∧
      (processTrace [c1Line]).worker_data = [] := by
  constructor
  · decide
  · decide

/-- Claim C1, amended: on a switch event the incoming pid is updated only
when it already has a record (then `T_First_CPU` is set on first sighting
and `T_Last_Scheduled_In` is opened at the event timestamp); an incoming
pid with no record is ignored — record creation happens only in the fork
branch, so `arrival_time` is never set here. -/
theorem c1_switch_updates_only_known (st : TraceState) (pid : ℤ) (ts : ℚ) (np : ℤ) :
    (lookupRec st.worker_data np = none →
      lookupRec (applyEvent st pid ts (.sw (some np))).worker_data np = none) ∧
    (∀ r : WorkerRec, lookupRec st.worker_data np = some r → np ≠ pid →
      lookupRec (applyEvent st pid ts (.sw (some np))).worker_data np =
        some { r with
          T_First_CPU := (match r.T_First_CPU with
            | none => some ts
            | some t => some t),
          T_Last_Scheduled_In := some ts }) := by
  constructor
  · intro h
    have h1 := lookup_closeSlice_none st pid ts np h
    simp only [applyEvent, schedIn, h1]
    exact h1
  · intro r hr hne
    have h1 : lookupRec (closeSlice st pid ts).worker_data np = some r :=
      (lookup_closeSlice_ne st pid ts np hne).trans hr
    simp only [applyEvent, schedIn, h1, Option.isSome_some, if_true]
    rw [lookup_updRec]
    simp [h1, schedInUpd]

theorem c1_switch_updates_only_known_witness :
    lookupRec c1State.worker_data 5 = some (newRec 0) ∧
      (5 : ℤ) ≠ 1 ∧
      lookupRec (applyEvent c1State 1 2 (.sw (some 5))).worker_data 5 =
        some { T_Arrival := some 0, T_First_CPU := some 2, T_Completion := none,
               Total_CPU_Time := 0, T_Last_Scheduled_In := some 2 } :=
  ⟨by decide, by decide,
    (c1_switch_updates_only_known c1State 1 2 5).2 (newRec 0) (by decide) (by decide)⟩

/-! ### Claim C3 — result on a trace with no parseable line -/

/-- The summary computed when the loop state never left its initialiser:
all averages are zero, and the reported duration is the difference of the
two infinite sentinels, `-inf`, not zero. -/
theorem calcMetrics_initState :
    calcMetrics initState =
      { Average_TAT := 0, Average_RT := 0, CV_Fairness_sq := 0,
        Total_Experiment_Duration := .negInf } := rfl

unseal Rat.mul Rat.add Rat.sub Rat.inv in
/-- Claim C3, counterexample: a present trace file whose single line is
unparseable yields averages `0.0` but `Total_Experiment_Duration = -inf`
(`float('-inf') - float('inf')` on the untouched sentinels of parse.py
lines 26-27), not `0.0` as the claim states. -/
theorem c3_empty_trace_duration_neg_inf :
    parseRaw "hello world" = none ∧
      parse_and_calculate_worker_metrics (some ["hello world"]) =
        some { Average_TAT := 0, Average_RT := 0, CV_Fairness_sq := 0,
               Total_Experiment_Duration := .negInf } ∧
      Duration.negInf ≠ Duration.fin 0 := by
  refine ⟨by decide, by decide, by decide⟩

/-- Claim C3, amended: for a trace file that exists but contains no
parseable event line, the computation returns (without raising) a summary
whose averages are all `0.0` and whose total duration is `-inf` — the
difference of the untouched `float('-inf')`/`float('inf')` initialisers —
rather than `0.0`. -/
theorem c3_unparseable_trace_result (lines : List String)
    (h : ∀ l ∈ lines, parseRaw l = none) :
    parse_and_calculate_worker_metrics (some lines) =
      some { Average_TAT := 0, Average_RT := 0, CV_Fairness_sq := 0,
             Total_Experiment_Duration := .negInf } := by
  have hfold : processTrace lines = initState := by
    unfold processTrace
    induction lines with
    | nil => rfl
    | cons l ls ih =>
      simp only [List.foldl_cons]
      rw [show processLine initState l = initState by
        simp [processLine, h l (List.mem_cons_self l ls)]]
      exact ih (fun x hx => h x (List.mem_cons_of_mem l hx))
  simp only [parse_and_calculate_worker_metrics, hfold, calcMetrics_initState]

theorem c3_unparseable_trace_result_witness :
    (∀ l ∈ ["hello world"], parseRaw l = none) ∧
      parse_and_calculate_worker_metrics (some ["hello world"]) =
        some { Average_TAT := 0, Average_RT := 0, CV_Fairness_sq := 0,
               Total_Experiment_Duration := .negInf } :=
  ⟨by decide, c3_unparseable_trace_result ["hello world"] (by decide)⟩

/-! ### Claim C9 — the line parser is total and classification is
exclusive -/

/-- Claim C9: the embedded parser is a total function (the Python code
performs only regex matching, substring tests and conversions of digit
groups, none of which can raise): every line yields `none` (silently
skipped) or exactly one parsed event, classified by the `elif` chain into
exactly one of fork (with its `child_pid` extraction), exit, switch (with
its incoming-pid extraction) or the fall-through other; an other-classified
body is a no-op for the lifecycle state, and an unmatched line leaves the
whole loop state unchanged. -/
theorem c9_parser_total (d : List Char) (st : TraceState) (pid : ℤ) (ts : ℚ)
    (l : String) :
    (containsSub forkMarker d = true → classify d = .fork (searchChildPid d)) ∧
    (containsSub forkMarker d = false → containsSub exitMarker d = true →
      classify d = .exit) ∧
    (containsSub forkMarker d = false → containsSub exitMarker d = false →
      containsSub switchMarker d = true → classify d = .sw (searchNextPid d)) ∧
    (containsSub forkMarker d = false → containsSub exitMarker d = false →
      containsSub switchMarker d = false → classify d = .other) ∧
    (applyEvent st pid ts .other = st) ∧
    (parseRaw l = none → processLine st l = st) := by
  refine ⟨?_, ?_, ?_, ?_, rfl, ?_⟩
  · intro h1
    simp [classify, h1]
  · intro h1 h2
    simp [classify, h1, h2]
  · intro h1 h2 h3
    simp [classify, h1, h2, h3]
  · intro h1 h2 h3
    simp [classify, h1, h2, h3]
  · intro h
    simp [processLine, h]

theorem c9_parser_total_witness :
    containsSub forkMarker c9Details = false ∧
      containsSub exitMarker c9Details = false ∧
      containsSub switchMarker c9Details = true ∧
      classify c9Details = .sw (searchNextPid c9Details) ∧
      processLine initState "hello world" = initState :=
  ⟨by decide, by decide, by decide,
    (c9_parser_total c9Details initState 0 0 "hello world").2.2.1
      (by decide) (by decide) (by decide),
    (c9_parser_total c9Details initState 0 0 "hello world").2.2.2.2.2
      (by decide)⟩

/-! ### Claim C10 — both context-switch accumulators sum the voluntary
count -/

/-- Claim C10: in every snapshot produced by `collect_raw`, the
`T_nvcsw_total` field equals the `T_vcsw_total` field: state.py lines
75-76 add `p.num_ctx_switches().voluntary` to both accumulators, so the
involuntary total is never captured. -/
theorem c10_nvcsw_equals_vcsw (eid : ℤ) (rd : SysReading) :
    (collect_raw eid rd).T_nvcsw_total = (collect_raw eid rd).T_vcsw_total := rfl

/-! ### Claim C8 — missing trace file and the assembled result row -/

/-- Claim C8, first half holds and second half fails: a missing trace
file makes `parse_and_calculate_worker_metrics` return the empty result
(the `FileNotFoundError` handler of parse.py lines 91-93) instead of
raising; but the row assembled by `experiment` is empty for every
request, because the call at experiment.py line 47 passes one positional
argument to a function requiring two (parse.py line 12), so a `TypeError`
is raised inside the `try` block before the row of lines 53-62 is built,
and the blanket handler returns the initial empty `results` — the run
result does not include the request parameters. -/
theorem c8_missing_trace_empty_row (req : RunRequest) :
    parse_and_calculate_worker_metrics none = none ∧
      experimentResultKeys req = [] := by
  refine ⟨rfl, ?_⟩
  simp [experimentResultKeys, experimentParseCallArgCount, parseAndCalcParamCount]

/-! ### Claim C6 — the coefficient-of-variation fairness metric -/

theorem list_sum_of_const (vs : List ℚ) (c : ℚ) (h : ∀ v ∈ vs, v = c) :
    vs.sum = vs.length * c := by
  induction vs with
  | nil => simp
  | cons x xs ih =>
    simp only [List.sum_cons, List.length_cons]
    rw [h x (List.mem_cons_self x xs),
      ih (fun v hv => h v (List.mem_cons_of_mem x hv))]
    push_cast
    ring

theorem listMean_of_const (vs : List ℚ) (c : ℚ) (hne : vs ≠ [])
    (h : ∀ v ∈ vs, v = c) : listMean vs = c := by
  unfold listMean
  rw [list_sum_of_const vs c h]
  have h0 : vs.length ≠ 0 := fun hl => hne (List.length_eq_zero.mp hl)
  have hq : (vs.length : ℚ) ≠ 0 := Nat.cast_ne_zero.mpr h0
  field_simp

theorem popVar_of_const (vs : List ℚ) (c : ℚ) (hne : vs ≠ [])
    (h : ∀ v ∈ vs, v = c) : popVar vs = 0 := by
  unfold popVar
  have hz : (vs.map (fun v => (v - listMean vs) ^ 2)).sum = 0 := by
    apply List.sum_eq_zero
    intro x hx
    obtain ⟨v, hv, rfl⟩ := List.mem_map.mp hx
    rw [h v hv, listMean_of_const vs c hne h]
    ring
  rw [hz, zero_div]

unseal Rat.mul Rat.add Rat.sub Rat.inv in
/-- Claim C6, counterexample: a trace (with a timestamp regression, which
the line format permits) whose two completed workers have CPU times `1` and `-1`:
the values differ, yet the mean is `0`, the guard `mean_time > 0` of
parse.py line 146 fails and `CV_Fairness` is `0.0` — not strictly
positive as the claim asserts for every non-degenerate differing set. -/
theorem c6_differing_times_zero_cv :
    cpuTimes (finalizeData (processTrace c6Lines).worker_data
        ((processTrace c6Lines).endT.getD 0)) = [1, -1] ∧
      (1 : ℚ) ≠ -1 ∧
      (parse_and_calculate_worker_metrics (some c6Lines)).map
          (fun x => x.CV_Fairness_sq) = some 0 :=
  ⟨by decide, by decide, by decide⟩

/-- Claim C6, amended: the metrics computation collects `total_cpu_time`
over exactly the complete records; `cv_fairness` is `popstd/mean` when the
mean is strictly positive and `0.0` when the set is empty or the mean is
not positive (the code's guard is `mean > 0`, not `mean = 0`); it is `0.0`
whenever all collected values are identical, and strictly positive
whenever the values differ *and their mean is positive* — in particular
for every differing set of non-negative values.  (Stated via `cvSq`, the
square of the code's value, which is zero or positive exactly when the
code's value is.) -/
theorem c6_cv_fairness (m : WorkerMap) (vs : List ℚ) :
    (cpuTimes m =
      (m.filter (fun p => p.2.T_Completion.isSome)).map
        (fun p => p.2.Total_CPU_Time)) ∧
    (vs = [] → cvSq vs = 0) ∧
    (¬ 0 < listMean vs → cvSq vs = 0) ∧
    ((∀ a ∈ vs, ∀ b ∈ vs, a = b) → cvSq vs = 0) ∧
    (0 < listMean vs → (∃ a ∈ vs, ∃ b ∈ vs, a ≠ b) → 0 < cvSq vs) := by
  refine ⟨?_, ?_, ?_, ?_, ?_⟩
  · induction m with
    | nil => rfl
    | cons p ps ih =>
      by_cases h : p.2.T_Completion.isSome <;>
        simp [cpuTimes, List.filterMap_cons, List.filter_cons, h] <;>
        simpa [cpuTimes] using ih
  · intro h
    simp [cvSq, h]
  · intro h
    simp [cvSq, h]
  · intro h
    cases hvs : vs with
    | nil => simp [cvSq]
    | cons x xs =>
      rw [← hvs]
      have hne : vs ≠ [] := by simp [hvs]
      have hc : ∀ v ∈ vs, v = x := fun v hv => h v hv x (by simp [hvs])
      unfold cvSq
      rw [if_neg hne, popVar_of_const vs x hne hc, zero_div]
      split <;> rfl
  · intro hmean ⟨a, ha, b, hb, hab⟩
    have hvne : vs ≠ [] := fun h => by subst h; exact absurd ha (by simp)
    have hex : ∃ v ∈ vs, v ≠ listMean vs := by
      by_contra hc
      push_neg at hc
      exact hab ((hc a ha).trans (hc b hb).symm)
    obtain ⟨v, hv, hvmean⟩ := hex
    have hterm : 0 < (v - listMean vs) ^ 2 :=
      pow_two_pos_of_ne_zero (sub_ne_zero.mpr hvmean)
    have hsum : 0 < (vs.map (fun w => (w - listMean vs) ^ 2)).sum := by
      refine lt_of_lt_of_le hterm (List.single_le_sum ?_ _ ?_)
      · intro x hx
        obtain ⟨w, _, rfl⟩ := List.mem_map.mp hx
        exact sq_nonneg _
      · exact List.mem_map_of_mem _ hv
    have hlen : (0 : ℚ) < vs.length := by
      exact_mod_cast List.length_pos.mpr hvne
    have hvar : 0 < popVar vs := div_pos hsum hlen
    unfold cvSq
    rw [if_neg hvne, if_pos hmean]
    exact div_pos hvar (pow_pos hmean 2)

unseal Rat.mul Rat.add Rat.sub Rat.inv in
theorem c6_cv_fairness_witness :
    (0 < listMean [1, 2]) ∧
      (∃ a ∈ [(1 : ℚ), 2], ∃ b ∈ [(1 : ℚ), 2], a ≠ b) ∧
      0 < cvSq [1, 2] :=
  ⟨by decide, by decide,
    (c6_cv_fairness [] [1, 2]).2.2.2.2 (by decide) (by decide)⟩

/-! ### Claim C7 — bounded FIFO window and one-element reduction -/

theorem dequePush_length_le (cap : ℕ) (buf : List Snapshot) (s : Snapshot) :
    (dequePush cap buf s).length ≤ cap := by
  simp only [dequePush, List.length_drop, List.length_append]
  omega

theorem dequePushAll_drop (cap : ℕ) :
    ∀ (xs buf : List Snapshot), buf.length ≤ cap →
      xs.foldl (dequePush cap) buf =
        (buf ++ xs).drop (buf.length + xs.length - cap) := by
  intro xs
  induction xs with
  | nil =>
    intro buf hbuf
    simp [Nat.sub_eq_zero_of_le hbuf]
  | cons x xs ih =>
    intro buf hbuf
    rw [List.foldl_cons, ih (dequePush cap buf x) (dequePush_length_le cap buf x)]
    by_cases hc : buf.length + 1 ≤ cap
    · have hp : dequePush cap buf x = buf ++ [x] := by
        have hidx : (buf ++ [x]).length - cap = 0 := by
          simp only [List.length_append, List.length_cons, List.length_nil]
          omega
        show (buf ++ [x]).drop ((buf ++ [x]).length - cap) = buf ++ [x]
        rw [hidx, List.drop_zero]
      rw [hp, List.append_assoc, List.singleton_append]
      congr 1
      simp only [List.length_append, List.length_cons, List.length_nil]
      omega
    · have hp : dequePush cap buf x = (buf ++ [x]).drop 1 := by
        have hidx : (buf ++ [x]).length - cap = 1 := by
          simp only [List.length_append, List.length_cons, List.length_nil]
          omega
        show (buf ++ [x]).drop ((buf ++ [x]).length - cap) = (buf ++ [x]).drop 1
        rw [hidx]
      have h1le : 1 ≤ (buf ++ [x]).length := by
        simp only [List.length_append, List.length_cons, List.length_nil]
        omega
      rw [hp, ← List.drop_append_of_le_length h1le, List.drop_drop,
        List.append_assoc, List.singleton_append]
      congr 1
      simp only [List.length_drop, List.length_append, List.length_cons,
        List.length_nil]
      omega

theorem pctChange_zero (v : ℚ) : pctChange 0 v = 0 := by
  unfold pctChange
  split <;> simp

theorem build_state_single (s : Snapshot) :
    ∀ pr ∈ (build_state [s]).getD [], pr.2.delta = 0 ∧ pr.2.pct_change = 0 := by
  intro pr hpr
  simp only [build_state, List.getLast?_singleton, List.head?_cons,
    Option.getD_some, List.mem_append, List.mem_map] at hpr
  rcases hpr with ⟨mn, _, rfl⟩ | ⟨mn, _, rfl⟩ <;>
    simp [sub_self, pctChange_zero]

/-- Claim C7: the window capacity is `int(duration // interval)`, i.e.
`floor(duration / interval)`; for every pushed sequence the deque retains
exactly the `capacity` most recent snapshots in arrival order (for short
sequences, everything — `drop` of a zero index), with length exactly
`capacity` once more than `capacity` snapshots have been pushed; and the
reduction of a one-element window yields `delta = 0` and `pct_change = 0`
for every reduced metric. -/
theorem c7_sliding_window (duration interval : ℚ) (cap : ℕ)
    (xs : List Snapshot) (s : Snapshot)
    (hcap : cap = (buffer_size duration interval).toNat) :
    (dequePushAll cap xs = xs.drop (xs.length - cap) ∧
      (cap < xs.length → (dequePushAll cap xs).length = cap)) ∧
    (∀ pr ∈ (build_state [s]).getD [], pr.2.delta = 0 ∧ pr.2.pct_change = 0) := by
  refine ⟨⟨?_, ?_⟩, build_state_single s⟩
  · have h := dequePushAll_drop cap xs [] (by simp)
    simpa [dequePushAll] using h
  · intro hlt
    have h := dequePushAll_drop cap xs [] (by simp)
    simp only [dequePushAll]
    rw [h]
    simp only [List.nil_append, List.length_nil, Nat.zero_add, List.length_drop]
    omega

unseal Rat.mul Rat.add Rat.sub Rat.inv in
theorem c7_sliding_window_witness :
    (16 = (buffer_size 4 (1 / 4)).toNat) ∧
      ((dequePushAll 16 (List.replicate 17 sampleSnap) =
          (List.replicate 17 sampleSnap).drop
            ((List.replicate 17 sampleSnap).length - 16) ∧
        (16 < (List.replicate 17 sampleSnap).length →
          (dequePushAll 16 (List.replicate 17 sampleSnap)).length = 16)) ∧
       (∀ pr ∈ (build_state [sampleSnap]).getD [],
          pr.2.delta = 0 ∧ pr.2.pct_change = 0)) :=
  ⟨by decide, c7_sliding_window 4 (1 / 4) 16 (List.replicate 17 sampleSnap)
    sampleSnap (by decide)⟩

/-! ### Claim C5 — sign and monotonicity of the accumulated CPU time -/

theorem closeSlice_eq_of_none (st : TraceState) (pid : ℤ) (ts : ℚ)
    (h : (lookupRec st.worker_data pid).bind (fun r => r.T_Last_Scheduled_In) = none) :
    closeSlice st pid ts = st := by
  unfold closeSlice
  rw [h]

theorem closeSlice_eq_of_some (st : TraceState) (pid : ℤ) (ts tin : ℚ)
    (h : (lookupRec st.worker_data pid).bind (fun r => r.T_Last_Scheduled_In) =
      some tin) :
    closeSlice st pid ts =
      { st with worker_data := updRec st.worker_data pid (closeSliceUpd ts tin) } := by
  unfold closeSlice
  rw [h]

theorem closeSlice_preserves (st : TraceState) (pid : ℤ) (ts : ℚ)
    (h : SchedBound st.worker_data ts) :
    SchedBound (closeSlice st pid ts).worker_data ts ∧
    (∀ (p : ℤ) (r : WorkerRec), lookupRec st.worker_data p = some r →
      ∃ r2, lookupRec (closeSlice st pid ts).worker_data p = some r2 ∧
        r.Total_CPU_Time ≤ r2.Total_CPU_Time) := by
  cases hb : (lookupRec st.worker_data pid).bind (fun r => r.T_Last_Scheduled_In) with
  | none =>
    rw [closeSlice_eq_of_none st pid ts hb]
    exact ⟨h, fun p r hr => ⟨r, hr, le_refl _⟩⟩
  | some tin =>
    obtain ⟨r0, hl, hs⟩ := Option.bind_eq_some.mp hb
    have htin : tin ≤ ts := (h pid r0 hl).2 tin hs
    have hslice : 0 ≤ ts - tin := by linarith
    rw [closeSlice_eq_of_some st pid ts tin hb]
    constructor
    · intro p r2 hr2
      rw [lookup_updRec] at hr2
      by_cases hp : p = pid
      · rw [if_pos hp] at hr2
        subst hp
        rw [hl, Option.map_some'] at hr2
        injection hr2 with hr2
        subst hr2
        refine ⟨add_nonneg (h p r0 hl).1 hslice, ?_⟩
        intro t ht
        simp [closeSliceUpd] at ht
      · rw [if_neg hp] at hr2
        exact h p r2 hr2
    · intro p r hr
      rw [lookup_updRec]
      by_cases hp : p = pid
      · rw [if_pos hp, hr, Option.map_some']
        exact ⟨closeSliceUpd ts tin r, rfl, le_add_of_nonneg_right hslice⟩
      · rw [if_neg hp]
        exact ⟨r, hr, le_refl _⟩

theorem schedIn_preserves (st : TraceState) (ts : ℚ) (next : Option ℤ)
    (h : SchedBound st.worker_data ts) :
    SchedBound (schedIn st ts next).worker_data ts ∧
    (∀ (p : ℤ) (r : WorkerRec), lookupRec st.worker_data p = some r →
      ∃ r2, lookupRec (schedIn st ts next).worker_data p = some r2 ∧
        r.Total_CPU_Time ≤ r2.Total_CPU_Time) := by
  cases next with
  | none => exact ⟨h, fun p r hr => ⟨r, hr, le_refl _⟩⟩
  | some np =>
    by_cases hnp : (lookupRec st.worker_data np).isSome
    · have heq : schedIn st ts (some np) =
          { st with worker_data := updRec st.worker_data np (schedInUpd ts) } := by
        simp only [schedIn]
        rw [if_pos hnp]
      rw [heq]
      constructor
      · intro p r2 hr2
        rw [lookup_updRec] at hr2
        by_cases hp : p = np
        · rw [if_pos hp] at hr2
          subst hp
          cases hl : lookupRec st.worker_data p with
          | none => rw [hl] at hr2; simp at hr2
          | some r0 =>
            rw [hl, Option.map_some'] at hr2
            injection hr2 with hr2
            subst hr2
            refine ⟨(h p r0 hl).1, ?_⟩
            intro t ht
            simp only [schedInUpd] at ht
            injection ht with ht
            rw [← ht]
        · rw [if_neg hp] at hr2
          exact h p r2 hr2
      · intro p r hr
        rw [lookup_updRec]
        by_cases hp : p = np
        · rw [if_pos hp, hr, Option.map_some']
          exact ⟨schedInUpd ts r, rfl, le_refl _⟩
        · rw [if_neg hp]
          exact ⟨r, hr, le_refl _⟩
    · have heq : schedIn st ts (some np) = st := by
        simp only [schedIn]
        rw [if_neg hnp]
      rw [heq]
      exact ⟨h, fun p r hr => ⟨r, hr, le_refl _⟩⟩

theorem applyEvent_preserves (st : TraceState) (pid : ℤ) (ts : ℚ) (k : EventKind)
    (h : SchedBound st.worker_data ts) :
    SchedBound (applyEvent st pid ts k).worker_data ts ∧
    (∀ (p : ℤ) (r : WorkerRec), lookupRec st.worker_data p = some r →
      ∃ r2, lookupRec (applyEvent st pid ts k).worker_data p = some r2 ∧
        r.Total_CPU_Time ≤ r2.Total_CPU_Time) := by
  cases k with
  | other => exact ⟨h, fun p r hr => ⟨r, hr, le_refl _⟩⟩
  | fork child =>
    cases child with
    | none => exact ⟨h, fun p r hr => ⟨r, hr, le_refl _⟩⟩
    | some wp =>
      by_cases hw : (lookupRec st.worker_data wp).isSome
      · have heq : applyEvent st pid ts (.fork (some wp)) = st := by
          simp [applyEvent, hw]
        rw [heq]
        exact ⟨h, fun p r hr => ⟨r, hr, le_refl _⟩⟩
      · have heq : applyEvent st pid ts (.fork (some wp)) =
            { st with worker_data := st.worker_data ++ [(wp, newRec ts)] } := by
          simp [applyEvent, hw]
        rw [heq]
        constructor
        · intro p r2 hr2
          rw [lookup_append] at hr2
          cases hl : lookupRec st.worker_data p with
          | some r0 =>
            rw [hl] at hr2
            exact h p r2 (hl.trans hr2)
          | none =>
            rw [hl] at hr2
            by_cases hp : wp = p
            · rw [lookupRec_cons, if_pos hp] at hr2
              injection hr2 with hr2
              subst hr2
              refine ⟨le_refl 0, ?_⟩
              intro t ht
              simp [newRec] at ht
            · rw [lookupRec_cons, if_neg hp] at hr2
              simp [lookupRec] at hr2
        · intro p r hr
          rw [lookup_append, hr]
          exact ⟨r, rfl, le_refl _⟩
  | exit =>
    by_cases he : (lookupRec st.worker_data pid).isSome
    · have heq : applyEvent st pid ts .exit =
          { st with worker_data := updRec st.worker_data pid (exitUpd ts) } := by
        simp [applyEvent, he]
      rw [heq]
      constructor
      · intro p r2 hr2
        rw [lookup_updRec] at hr2
        by_cases hp : p = pid
        · rw [if_pos hp] at hr2
          cases hl : lookupRec st.worker_data p with
          | none => rw [hl] at hr2; simp at hr2
          | some r0 =>
            rw [hl, Option.map_some'] at hr2
            injection hr2 with hr2
            subst hr2
            exact ⟨(h p r0 hl).1, (h p r0 hl).2⟩
        · rw [if_neg hp] at hr2
          exact h p r2 hr2
      · intro p r hr
        rw [lookup_updRec]
        by_cases hp : p = pid
        · rw [if_pos hp, hr, Option.map_some']
          exact ⟨_, rfl, le_refl _⟩
        · rw [if_neg hp]
          exact ⟨r, hr, le_refl _⟩
    · have heq : applyEvent st pid ts .exit = st := by
        simp [applyEvent, he]
      rw [heq]
      exact ⟨h, fun p r hr => ⟨r, hr, le_refl _⟩⟩
  | sw next =>
    have h1 := closeSlice_preserves st pid ts h
    have h2 := schedIn_preserves (closeSlice st pid ts) ts next h1.1
    refine ⟨h2.1, ?_⟩
    intro p r hr
    obtain ⟨ra, hra, hta⟩ := h1.2 p r hr
    obtain ⟨rb, hrb, htb⟩ := h2.2 p ra hra
    exact ⟨rb, hrb, le_trans hta htb⟩

theorem finalizeRec_closed (e : ℚ) (r : WorkerRec)
    (h : r.T_Last_Scheduled_In = none) : finalizeRec e r = r := by
  unfold finalizeRec
  rw [h]

theorem processLine_preserves (st : TraceState) (l : String) (L : RawLine)
    (hp : parseRaw l = some L) (hInv : InvB st)
    (hle : ∀ e, st.endT = some e → e ≤ L.ts) :
    InvB (processLine st l) ∧
    (∀ (p : ℤ) (r : WorkerRec), lookupRec st.worker_data p = some r →
      ∃ r2, lookupRec (processLine st l).worker_data p = some r2 ∧
        r.Total_CPU_Time ≤ r2.Total_CPU_Time) ∧
    (∀ u, (∀ e, st.endT = some e → e ≤ u) → L.ts ≤ u →
      ∀ e2, (processLine st l).endT = some e2 → e2 ≤ u) := by
  have hpleq : processLine st l =
      applyEvent (bumpTrackers st L.ts) L.pid L.ts (classify L.details) := by
    simp [processLine, hp]
  have hbt : (bumpTrackers st L.ts).endT = updMax st.endT L.ts := rfl
  have hend1 : ∃ e1, (updMax st.endT L.ts) = some e1 ∧ L.ts ≤ e1 ∧
      (∀ u, (∀ e, st.endT = some e → e ≤ u) → L.ts ≤ u → e1 ≤ u) := by
    cases he : st.endT with
    | none => exact ⟨L.ts, by simp [updMax], le_refl _, fun u _ hu2 => hu2⟩
    | some e =>
      exact ⟨max e L.ts, by simp [updMax], le_max_right _ _,
        fun u hu1 hu2 => max_le (hu1 e rfl) hu2⟩
  obtain ⟨e1, he1, hts1, hmax⟩ := hend1
  have hsb : SchedBound (bumpTrackers st L.ts).worker_data L.ts := by
    intro p r hr
    have hh := hInv p r hr
    refine ⟨hh.1, ?_⟩
    intro t ht
    obtain ⟨e, hee, hte⟩ := hh.2 t ht
    exact le_trans hte (hle e hee)
  have hpre := applyEvent_preserves _ L.pid L.ts (classify L.details) hsb
  have hendAE := applyEvent_endT (bumpTrackers st L.ts) L.pid L.ts
    (classify L.details)
  refine ⟨?_, ?_, ?_⟩
  · rw [hpleq]
    intro p r hr
    obtain ⟨h0, hsched⟩ := hpre.1 p r hr
    refine ⟨h0, ?_⟩
    intro t ht
    refine ⟨e1, ?_, le_trans (hsched t ht) hts1⟩
    rw [hendAE.1, hbt]
    exact he1
  · rw [hpleq]
    exact hpre.2
  · intro u hu1 hu2 e2 he2
    rw [hpleq, hendAE.1, hbt, he1] at he2
    injection he2 with he2
    rw [← he2]
    exact hmax u hu1 hu2

theorem foldl_processLine_preserves :
    ∀ (lines : List String) (st : TraceState),
      InvB st →
      (∀ L ∈ lines.filterMap parseRaw, ∀ e, st.endT = some e → e ≤ L.ts) →
      ((lines.filterMap parseRaw).map (fun L => L.ts)).Pairwise (· ≤ ·) →
      InvB (lines.foldl processLine st) ∧
      (∀ (p : ℤ) (r : WorkerRec), lookupRec st.worker_data p = some r →
        ∃ r2, lookupRec (lines.foldl processLine st).worker_data p = some r2 ∧
          r.Total_CPU_Time ≤ r2.Total_CPU_Time) ∧
      (∀ u, (∀ e, st.endT = some e → e ≤ u) →
        (∀ L ∈ lines.filterMap parseRaw, L.ts ≤ u) →
        ∀ e2, (lines.foldl processLine st).endT = some e2 → e2 ≤ u) := by
  intro lines
  induction lines with
  | nil =>
    intro st hInv _ _
    exact ⟨hInv, fun p r hr => ⟨r, hr, le_refl _⟩, fun u hu _ e2 he2 => hu e2 he2⟩
  | cons l ls ih =>
    intro st hInv hle hpw
    rw [List.foldl_cons]
    cases hp : parseRaw l with
    | none =>
      have hskip : processLine st l = st := by simp [processLine, hp]
      have hfm : (l :: ls).filterMap parseRaw = ls.filterMap parseRaw := by
        simp [List.filterMap_cons, hp]
      rw [hfm] at hle hpw
      rw [hskip, hfm]
      exact ih st hInv hle hpw
    | some L =>
      have hfm : (l :: ls).filterMap parseRaw = L :: ls.filterMap parseRaw := by
        simp [List.filterMap_cons, hp]
      rw [hfm] at hle hpw
      rw [hfm]
      have hleL : ∀ e, st.endT = some e → e ≤ L.ts :=
        hle L (List.mem_cons_self _ _)
      have hstep := processLine_preserves st l L hp hInv hleL
      rw [List.map_cons, List.pairwise_cons] at hpw
      obtain ⟨hhead, htail⟩ := hpw
      have hle2 : ∀ L2 ∈ ls.filterMap parseRaw, ∀ e,
          (processLine st l).endT = some e → e ≤ L2.ts := by
        intro L2 hL2 e he
        have hts2 : L.ts ≤ L2.ts := hhead _ (List.mem_map_of_mem _ hL2)
        exact hstep.2.2 L2.ts
          (fun e0 he0 => hle L2 (List.mem_cons_of_mem _ hL2) e0 he0) hts2 e he
      have hrec := ih (processLine st l) hstep.1 hle2 htail
      refine ⟨hrec.1, ?_, ?_⟩
      · intro p r hr
        obtain ⟨ra, hra, hta⟩ := hstep.2.1 p r hr
        obtain ⟨rb, hrb, htb⟩ := hrec.2.1 p ra hra
        exact ⟨rb, hrb, le_trans hta htb⟩
      · intro u hu hL e2 he2
        have huL : L.ts ≤ u := hL L (List.mem_cons_self _ _)
        exact hrec.2.2 u (fun e he => hstep.2.2 u hu huL e he)
          (fun L2 hL2 => hL L2 (List.mem_cons_of_mem _ hL2)) e2 he2

unseal Rat.mul Rat.add Rat.sub Rat.inv in
/-- Claim C5, counterexample: in the trace `c5Lines` the third line's
timestamp (3.0) is smaller than the second line's (10.0); the closing
slice of worker 5 is `3 - 10 = -7`, so its accumulated CPU time is
negative — the invariant fails for traces whose timestamps regress,
which the spec explicitly allows. -/
theorem c5_negative_cpu_time :
    ∃ r : WorkerRec, lookupRec (processTrace c5Lines).worker_data 5 = some r ∧
      r.Total_CPU_Time < 0 :=
  ⟨{ T_Arrival := some 1, T_First_CPU := some 10, T_Completion := none,
     Total_CPU_Time := -7, T_Last_Scheduled_In := none }, by decide, by decide⟩

/-- Claim C5, amended: for every trace whose parsed timestamps are
non-decreasing, each worker's `Total_CPU_Time` is non-negative, never
decreases as later events are applied (any split of the trace into a
prefix and a suffix), and the final-slice pass only adds a non-negative
amount.  Without the monotonicity hypothesis the property fails. -/
theorem c5_total_cpu_monotone (lines : List String)
    (hmono : (tsSeq lines).Pairwise (· ≤ ·)) :
    (∀ pre post, lines = pre ++ post →
      ∀ (p : ℤ) (r : WorkerRec),
        lookupRec (processTrace pre).worker_data p = some r →
        0 ≤ r.Total_CPU_Time ∧
        ∃ r2, lookupRec (processTrace lines).worker_data p = some r2 ∧
          r.Total_CPU_Time ≤ r2.Total_CPU_Time) ∧
    (∀ (p : ℤ) (r : WorkerRec),
      lookupRec (processTrace lines).worker_data p = some r →
      0 ≤ r.Total_CPU_Time ∧
      ∃ r3, lookupRec (finalizeData (processTrace lines).worker_data
          ((processTrace lines).endT.getD 0)) p = some r3 ∧
        r.Total_CPU_Time ≤ r3.Total_CPU_Time ∧ 0 ≤ r3.Total_CPU_Time) := by
  unfold tsSeq at hmono
  simp only [processTrace]
  have hInv0 : InvB initState := by
    intro p r hr
    simp [initState, lookupRec] at hr
  have hle0 : ∀ L ∈ lines.filterMap parseRaw, ∀ e,
      initState.endT = some e → e ≤ L.ts := by
    intro L _ e he
    simp [initState] at he
  have hmain := foldl_processLine_preserves lines initState hInv0 hle0 hmono
  constructor
  · intro pre post hsplit p r hr
    subst hsplit
    have hfm : ((pre ++ post).filterMap parseRaw) =
        pre.filterMap parseRaw ++ post.filterMap parseRaw :=
      List.filterMap_append pre post parseRaw
    rw [hfm, List.map_append, List.pairwise_append] at hmono
    have hle0p : ∀ L ∈ pre.filterMap parseRaw, ∀ e,
        initState.endT = some e → e ≤ L.ts := by
      intro L _ e he
      simp [initState] at he
    have hpre := foldl_processLine_preserves pre initState hInv0 hle0p hmono.1
    have h0 : 0 ≤ r.Total_CPU_Time := (hpre.1 p r hr).1
    have hle2 : ∀ L2 ∈ post.filterMap parseRaw, ∀ e,
        (processTrace pre).endT = some e → e ≤ L2.ts := by
      intro L2 hL2 e he
      refine hpre.2.2 L2.ts ?_ ?_ e he
      · intro e0 he0
        simp [initState] at he0
      · intro L hL
        exact hmono.2.2 L.ts (List.mem_map_of_mem _ hL) L2.ts
          (List.mem_map_of_mem _ hL2)
    have hpost := foldl_processLine_preserves post (processTrace pre)
      hpre.1 hle2 hmono.2.1
    have hsplit2 : (pre ++ post).foldl processLine initState =
        post.foldl processLine (pre.foldl processLine initState) := by
      rw [List.foldl_append]
    obtain ⟨r2, hr2, ht2⟩ := hpost.2.1 p r hr
    refine ⟨h0, r2, ?_, ht2⟩
    rw [hsplit2]
    exact hr2
  · intro p r hr
    obtain ⟨h0, hsched⟩ := hmain.1 p r hr
    refine ⟨h0, ?_⟩
    rw [lookup_finalizeData, hr, Option.map_some']
    cases hs : r.T_Last_Scheduled_In with
    | none =>
      rw [finalizeRec_closed _ r hs]
      exact ⟨r, rfl, le_refl _, h0⟩
    | some t =>
      obtain ⟨e, hee, hte⟩ := hsched t hs
      have hgd : (lines.foldl processLine initState).endT.getD 0 = e := by
        rw [hee]
        rfl
      rw [hgd, finalizeRec_open e r t hs]
      refine ⟨_, rfl, le_add_of_nonneg_right (by linarith), ?_⟩
      have : (0 : ℚ) ≤ e - t := by linarith
      simp only []
      linarith

unseal Rat.mul Rat.add Rat.sub Rat.inv in
theorem c5_total_cpu_monotone_witness :
    (tsSeq c5MonoLines).Pairwise (· ≤ ·) ∧
      (∀ (p : ℤ) (r : WorkerRec),
        lookupRec (processTrace c5MonoLines).worker_data p = some r →
        0 ≤ r.Total_CPU_Time ∧
        ∃ r3, lookupRec (finalizeData (processTrace c5MonoLines).worker_data
            ((processTrace c5MonoLines).endT.getD 0)) p = some r3 ∧
          r.Total_CPU_Time ≤ r3.Total_CPU_Time ∧ 0 ≤ r3.Total_CPU_Time) :=
  ⟨by decide, (c5_total_cpu_monotone c5MonoLines (by decide)).2⟩

end SchedulingBalancer
